import Mathlib

/-!
# OpsBot relay tunnel — verification of the specification's claims

Shallow embedding of the OpsBot / Gitea Azure-relay tunnel sources:

* `src/client/relay_sender.js` — OpsBot client (`connectWithRetry`,
  `sendCommand`, `initializeConnection`) and the embedded gitea-listener
  (HTTP parse, response close policy, heartbeats).
* `src/server/relay_listener.js` — OpsBot server (`connections` map,
  `startConnectionCleanup`).
* `src/Gitea_AzureRelayListener/README.md` — embedded gitea sender
  (passthrough forwarder: `pendingWrites`, `processWriteQueue`,
  `ws.on('message')` chunk split, `connectWithRetry`).

Bytes are modelled as `Nat`, JavaScript `Map`s as association lists with
`Map.set` / `Map.get` / `Map.delete` semantics, and timers by explicit
discrete time in milliseconds.
-/

namespace OpsBot

/-! ## JavaScript `Map` / object-assignment semantics

`connections` (src/server/relay_listener.js) and `activeConnections`
(gitea listener/sender) are JS `Map`s; the parsed `headers` value is a JS
object mutated by `headers[key] = value`.  Both follow the same
semantics: `set` updates the value in place when the key exists and
appends otherwise, `get` returns the stored value or nothing, `delete`
removes the key's entry and is a no-op when the key is absent. -/

def mapSet {κ α : Type} [DecidableEq κ] : List (κ × α) → κ → α → List (κ × α)
  | [], k, v => [(k, v)]
  | (k', v') :: rest, k, v =>
      if k' = k then (k', v) :: rest else (k', v') :: mapSet rest k v

def mapGet {κ α : Type} [DecidableEq κ] : List (κ × α) → κ → Option α
  | [], _ => none
  | (k', v') :: rest, k => if k' = k then some v' else mapGet rest k

def mapDelete {κ α : Type} [DecidableEq κ] : List (κ × α) → κ → List (κ × α)
  | [], _ => []
  | (k', v') :: rest, k => if k' = k then rest else (k', v') :: mapDelete rest k

theorem mapGet_mapSet {κ α : Type} [DecidableEq κ]
    (reg : List (κ × α)) (k : κ) (v : α) (k' : κ) :
    mapGet (mapSet reg k v) k' = if k' = k then some v else mapGet reg k' := by
  induction reg with
  | nil =>
      by_cases h : k' = k
      · subst h; simp [mapSet, mapGet]
      · have h' : ¬ k = k' := fun hh => h hh.symm
        simp [mapSet, mapGet, h, h']
  | cons hd tl ih =>
      obtain ⟨k₀, v₀⟩ := hd
      by_cases h₀ : k₀ = k
      · subst h₀
        by_cases h : k' = k₀
        · subst h; simp [mapSet, mapGet]
        · have h' : ¬ k₀ = k' := fun hh => h hh.symm
          simp [mapSet, mapGet, h, h']
      · by_cases h : k₀ = k'
        · subst h
          simp [mapSet, mapGet, h₀]
        · simp [mapSet, mapGet, h₀, h, ih]

theorem mapGet_eq_none_iff {κ α : Type} [DecidableEq κ]
    (reg : List (κ × α)) (k : κ) :
    mapGet reg k = none ↔ k ∉ reg.map Prod.fst := by
  induction reg with
  | nil => simp [mapGet]
  | cons hd tl ih =>
      obtain ⟨k₀, v₀⟩ := hd
      by_cases h : k₀ = k
      · subst h
        simp [mapGet]
      · simp [mapGet, h, ih, Ne.symm h]

theorem mapDelete_of_get_none {κ α : Type} [DecidableEq κ]
    (reg : List (κ × α)) (k : κ) (h : mapGet reg k = none) :
    mapDelete reg k = reg := by
  induction reg with
  | nil => simp [mapDelete]
  | cons hd tl ih =>
      obtain ⟨k₀, v₀⟩ := hd
      by_cases h₀ : k₀ = k
      · subst h₀
        simp [mapGet] at h
      · simp [mapGet, h₀] at h
        simp [mapDelete, h₀, ih h]

theorem mapDelete_mapDelete {κ α : Type} [DecidableEq κ]
    (reg : List (κ × α)) (k : κ) (hnd : (reg.map Prod.fst).Nodup) :
    mapDelete (mapDelete reg k) k = mapDelete reg k := by
  induction reg with
  | nil => simp [mapDelete]
  | cons hd tl ih =>
      obtain ⟨k₀, v₀⟩ := hd
      simp only [List.map_cons, List.nodup_cons] at hnd
      by_cases h₀ : k₀ = k
      · subst h₀
        simp only [mapDelete, if_pos rfl]
        exact mapDelete_of_get_none tl k₀ ((mapGet_eq_none_iff tl k₀).mpr hnd.1)
      · simp [mapDelete, h₀, ih hnd.2]

/-! ## FrameTranslator: HTTP request parsing (gitea listener)

`ws.on('message')` in the gitea listener (src/client/relay_sender.js,
lines 612–646) parses the incoming relay message text:

```js
const requestText = data.toString('utf8');
const requestLines = requestText.split('\r\n');
const requestLine = requestLines[0];
const [method, path] = requestLine.split(' ');
const headers = {};
let i = 1;
while (i < requestLines.length && requestLines[i]) {
    const [key, value] = requestLines[i].split(': ');
    if (key && value) { headers[key] = value; }
    i++;
}
httpRequest = { method: method || 'GET', path: path || '/', headers: headers || {} };
```

JS `split` with a non-empty separator matches `String.splitOn` (in
particular `"".split(sep)` is `[""]`); destructuring takes the leading
elements, with `undefined` (modelled as `none`) when absent; `x || d`
falls back on the empty string / `undefined`. -/

/-- Request text modelled as its character sequence (`String.data`), so
that the splitters below are structurally recursive and evaluable. -/
abbrev Str : Type := List Char

/-- JS `text.split('\r\n')`: leftmost-first, non-overlapping separator
matches; `"".split(sep)` is `[""]`. -/
def splitCRLF : Str → List Str
  | [] => [[]]
  | '\r' :: '\n' :: rest => [] :: splitCRLF rest
  | c :: rest =>
      match splitCRLF rest with
      | [] => [[c]]
      | h :: t => (c :: h) :: t

/-- JS `line.split(' ')`. -/
def splitSpace : Str → List Str
  | [] => [[]]
  | ' ' :: rest => [] :: splitSpace rest
  | c :: rest =>
      match splitSpace rest with
      | [] => [[c]]
      | h :: t => (c :: h) :: t

/-- JS `line.split(': ')`. -/
def splitColonSpace : Str → List Str
  | [] => [[]]
  | ':' :: ' ' :: rest => [] :: splitColonSpace rest
  | c :: rest =>
      match splitColonSpace rest with
      | [] => [[c]]
      | h :: t => (c :: h) :: t

structure HttpRequest where
  method : Str
  path : Str
  headers : List (Str × Str)
deriving DecidableEq

/-- One iteration of the header `while` loop: `split(': ')`, accept the pair
only when both `key` and `value` are truthy (present and non-empty;
`value` is `undefined` when the line has no `': '`). -/
def parseHeaderLine (line : Str) : Option (Str × Str) :=
  match splitColonSpace line with
  | k :: v :: _ => if k ≠ [] ∧ v ≠ [] then some (k, v) else none
  | _ => none

/-- The lines the header `while` loop visits: everything after the request
line up to (excluding) the first empty (falsy) line. -/
def headerLines (data : Str) : List Str :=
  ((splitCRLF data).drop 1).takeWhile (fun l => l ≠ [])

def parseHttpRequest (data : Str) : HttpRequest :=
  let requestLines := splitCRLF data
  let requestLine := requestLines.headD []
  let parts := splitSpace requestLine
  let method := parts.headD []
  let path? := parts[1]?
  let headers := (headerLines data).foldl
    (fun m line =>
      match parseHeaderLine line with
      | some kv => mapSet m kv.1 kv.2
      | none => m) []
  { method := if method = [] then "GET".data else method
    path := match path? with
            | some p => if p = [] then "/".data else p
            | none => "/".data
    headers := headers }

/-- The `(key, value)` pairs the header loop accepts, in source order
(reference description used to state which occurrence of a duplicated
key survives in the parsed map). -/
def headerPairsOf (data : Str) : List (Str × Str) :=
  (headerLines data).filterMap parseHeaderLine

/-- Reference notion (from the spec's words, §4.4) of a relay message that
*can* be parsed as an HTTP/1.x request: its first CRLF-separated line is
`"METHOD PATH VERSION"`, three non-empty space-separated tokens.  Used
only to state claim C3. -/
def specHttpParseable (data : Str) : Bool :=
  match splitSpace ((splitCRLF data).headD []) with
  | m :: p :: v :: _ => ! m.isEmpty && ! p.isEmpty && ! v.isEmpty
  | _ => false

/-! ## FrameTranslator: connection-closing policy after a response

From the `ws.send(fullResponse, callbck)` callback in the gitea listener
(src/client/relay_sender.js, lines 730–761):

```js
const isJsFile = options.path.endsWith('.js');
const isCssFile = options.path.endsWith('.css');
const isCoreJsFile = isJsFile && (
    options.path.includes('webcomponents.js') ||
    options.path.includes('serviceworker.js'));
ws.send(fullResponse, (err) => {
    if (err) { ... }
    else if (isJsFile && !isCoreJsFile) { ws.close(1000, '...'); }
    else if (isCoreJsFile) { /* keep open */ }
    else if (isCssFile) { setTimeout(() => ws.close(1000, '...'), 100); }
});
```
-/

/-- JS `String.prototype.endsWith`. -/
def endsWithS (s suffix : String) : Bool := decide (suffix.data <:+ s.data)

/-- JS `String.prototype.includes`. -/
def containsS (s pat : String) : Bool := decide (pat.data <:+: s.data)

def isCoreJsFile (path : String) : Bool :=
  endsWithS path ".js" &&
    (containsS path "webcomponents.js" || containsS path "serviceworker.js")

inductive CloseAction where
  | closeNow (code : ℕ)
  | closeAfterDelay (delayMs : ℕ) (code : ℕ)
  | keepOpen
deriving DecidableEq

/-- What the send callback does to the relay session on a successful send,
as a function of the request path. -/
def closeDecision (path : String) : CloseAction :=
  let isJsFile := endsWithS path ".js"
  let isCssFile := endsWithS path ".css"
  let isCoreJs := isCoreJsFile path
  if isJsFile && !isCoreJs then .closeNow 1000
  else if isCoreJs then .keepOpen
  else if isCssFile then .closeAfterDelay 100 1000
  else .keepOpen

/-! ## PassthroughForwarder: relay→local chunking and the write queue

From the gitea sender embedded in src/Gitea_AzureRelayListener/README.md.
`MAX_BUFFER_SIZE = 1024 * 1024` (lines 314–315); the `ws.on('message')`
handler (lines 396–416) splits a large message into
`chunkSize = MAX_BUFFER_SIZE / 2` slices and pushes them onto
`pendingWrites`, then calls `processWriteQueue()`. -/

def MAX_BUFFER_SIZE : ℕ := 1024 * 1024

/-- The slice loop
`for (let i = 0; i < data.length; i += chunkSize) {
   pendingWrites.push(data.slice(i, Math.min(i + chunkSize, data.length))); }`
with `chunkSize = MAX_BUFFER_SIZE / 2 = 524288`, phrased as take/drop
recursion (each iteration emits the next `chunkSize` bytes). -/
def chunkSplit : List ℕ → List (List ℕ)
  | [] => []
  | a :: l => (a :: l).take 524288 :: chunkSplit ((a :: l).drop 524288)
termination_by l => l.length
decreasing_by
  simp only [List.length_drop, List.length_cons]
  omega

/-- The chunks pushed onto `pendingWrites` for one incoming relay message. -/
def queueMessage (data : List ℕ) : List (List ℕ) :=
  if data.length > MAX_BUFFER_SIZE then chunkSplit data else [data]

/-- State of one passthrough session's local-socket writer: the
`pendingWrites` queue, the `isWriting` flag, and the chunks written to the
local socket so far (in order). -/
structure WState where
  pendingWrites : List (List ℕ)
  isWriting : Bool
  written : List (List ℕ)
deriving DecidableEq

/-- `processWriteQueue` (README.md lines 350–394) in the run where every
`socket.write` succeeds (returns `true`, so the `drain` suspension is never
entered and each `setImmediate(processWriteQueue)` continuation runs with
no other events interleaved).  The function body contains *two* successive
`try { socket.write(data); ... }` blocks over the same dequeued `data`;
both are modelled, in source order.  `fuel` bounds the recursion depth and
is chosen large enough below for the runs evaluated. -/
def processWriteQueue : ℕ → WState → WState
  | 0, st => st
  | fuel + 1, st =>
    if st.isWriting then st
    else
      match st.pendingWrites with
      | [] => st
      | data :: rest =>
        -- isWriting = true; const data = pendingWrites.shift();
        -- first try block: socket.write(data) → true; isWriting = false;
        -- processWriteQueue();
        let st1 := processWriteQueue fuel
          { pendingWrites := rest, isWriting := false,
            written := st.written ++ [data] }
        -- duplicated second try block: socket.write(data) again;
        -- isWriting = false; setImmediate(processWriteQueue);
        processWriteQueue fuel
          { st1 with isWriting := false, written := st1.written ++ [data] }

/-- The `ws.on('message')` handler for the relay→local direction: enqueue
the (possibly chunked) message, then drain the queue. -/
def wsOnMessage (st : WState) (data : List ℕ) : WState :=
  let q := st.pendingWrites ++ queueMessage data
  processWriteQueue (2 * q.length + 2) { st with pendingWrites := q }

/-! ## RetryScheduler: the two `connectWithRetry` implementations

### OpsBot client (src/client/relay_sender.js 92–186)

```js
async function connectWithRetry() {
  let retryCount = 0;
  let delay = config.connection.initialRetryDelay;        // 200
  while (retryCount < config.connection.maxRetryCount) {  // 10
    try {
      ...
      await testConnectivity(host, port);     // rejection → caught below
      ...
      return new Promise((resolve, reject) => { /* WebSocket stage */ });
    } catch (error) {
      if (retryCount >= config.connection.maxRetryCount - 1)
        throw new Error('Failed to connect after 10 attempts');
      await new Promise(r => setTimeout(r, delay));
      delay = Math.min(delay * 1.5, config.connection.maxRetryDelay);  // 5000
      retryCount++;
    }
  }
}
```

The `return new Promise(...)` is returned, not awaited, inside the `try`,
so a rejection of that WebSocket-stage promise (open timeout, error,
close, probe timeout) is *not* routed through the `catch`: the async
function's promise rejects immediately, with no wait and no further
attempt.  Only failures raised before the `return` — in practice the
`testConnectivity` rejection — enter the retry path.  Each attempt is
therefore abstracted as one of three outcomes. -/

inductive AttemptResult where
  /-- `testConnectivity` (or anything before the `return`) throws:
  caught, enters the backoff/retry path. -/
  | tcpFail
  /-- the returned WebSocket-stage promise rejects: the rejection is not
  caught, `connectWithRetry()`'s promise rejects at once. -/
  | wsFail
  /-- the WebSocket-stage promise resolves with the socket. -/
  | success
deriving DecidableEq

inductive RetryOutcome where
  /-- resolved with a connection on this attempt number. -/
  | connected (attempt : ℕ)
  /-- rejected by an uncaught WebSocket-stage failure on this attempt. -/
  | wsRejected (attempt : ℕ)
  /-- `throw new Error('Failed to connect after 10 attempts')`. -/
  | exhausted
  /-- the `while` loop exits (function returns undefined) — unreachable
  from the initial state, present only to totalize the fuel recursion. -/
  | fellThrough
deriving DecidableEq

/-- Delays are rationals (200 · 1.5ⁿ is not an integer from n = 4 on).
Attempt outcomes are an oracle indexed by attempt number (from 1).  The
model returns the outcome, the list of delays awaited (in order) and the
number of attempts issued. -/
def cwrGo (oracle : ℕ → AttemptResult) : ℕ → ℚ → ℕ → RetryOutcome × List ℚ × ℕ
  | _, _, 0 => (.fellThrough, [], 0)
  | retryCount, delay, fuel + 1 =>
    match oracle (retryCount + 1) with
    | .success => (.connected (retryCount + 1), [], 1)
    | .wsFail => (.wsRejected (retryCount + 1), [], 1)
    | .tcpFail =>
      if 10 - 1 ≤ retryCount then (.exhausted, [], 1)
      else
        let r := cwrGo oracle (retryCount + 1) (min (delay * (3 / 2)) 5000) fuel
        (r.1, delay :: r.2.1, r.2.2 + 1)

def connectWithRetry (oracle : ℕ → AttemptResult) : RetryOutcome × List ℚ × ℕ :=
  cwrGo oracle 0 200 10

/-! ### Gitea sender (src/Gitea_AzureRelayListener/README.md 458–516)

```js
const connectWithRetry = (retryCount = 0, maxRetries = 10) => {
  ...
  WebSocket.relayedConnect(relayUri, relayToken,
    function (ws) { ...success... },
    (err) => {
      if (retryCount < maxRetries) {
        const delay = retryCount === 0
          ? 200 : Math.min(Math.pow(1.5, retryCount) * 500, 5000);
        setTimeout(() => connectWithRetry(retryCount + 1, maxRetries), delay);
      } else { /* give up: socket.end() */ }
    });
};
```

(The surrounding `catch` repeats the same retry logic with the same delay
formula, so one failure outcome per attempt suffices.)  Note the wait
before attempt `n + 2` is `min(1.5ⁿ · 500, 5000)` for `n ≥ 1` — not
`min(previous · 1.5, 5000)` — and the guard `retryCount < maxRetries`
admits retryCount 0..10, i.e. up to 11 attempts. -/

/-- The delay the gitea sender waits after the attempt with this
`retryCount` fails (when it retries at all). -/
def giteaRetryDelay (retryCount : ℕ) : ℚ :=
  if retryCount = 0 then 200 else min ((3 / 2 : ℚ) ^ retryCount * 500) 5000

def gcwrGo (succ : ℕ → Bool) : ℕ → ℕ → Option ℕ × List ℚ × ℕ
  | _, 0 => (none, [], 0)
  | retryCount, fuel + 1 =>
    if succ (retryCount + 1) then (some (retryCount + 1), [], 1)
    else if retryCount < 10 then
      let r := gcwrGo succ (retryCount + 1) fuel
      (r.1, giteaRetryDelay retryCount :: r.2.1, r.2.2 + 1)
    else (none, [], 1)

def giteaConnectWithRetry (succ : ℕ → Bool) : Option ℕ × List ℚ × ℕ :=
  gcwrGo succ 0 11

/-- Reference delay sequence from the spec: `d 0 = 200` (awaited before the
second attempt), `d (n+1) = min (d n * 1.5) 5000`. -/
def backoffDelay : ℕ → ℚ
  | 0 => 200
  | n + 1 => min (backoffDelay n * (3 / 2)) 5000

/-- Delay sequence unrolled from an arbitrary current `delay` value. -/
def iterDelay (d : ℚ) : ℕ → ℚ
  | 0 => d
  | n + 1 => iterDelay (min (d * (3 / 2)) 5000) n

/-! ## Registry sweeps: connection cleanup and heartbeats

`startConnectionCleanup` (src/server/relay_listener.js 225–245) runs every
60 s and evicts connections with `now - lastActivity > 5 * 60 * 1000`,
closing them and deleting them from `connections`.

`sendHeartbeats` (gitea listener, src/client/relay_sender.js 552–571) runs
every 30 s; open channels are pinged and get `lastActivity = Date.now()`,
channels whose `readyState` is not `OPEN` are deleted from
`activeConnections` at that same sweep. -/

structure ConnInfo where
  isOpen : Bool
  lastActivity : ℕ
deriving DecidableEq

def CLEANUP_INTERVAL : ℕ := 60 * 1000

def IDLE_THRESHOLD : ℕ := 5 * 60 * 1000

/-- One firing of the `startConnectionCleanup` interval at time `now`:
the registry entries that survive (the others are closed and deleted). -/
def cleanupSweep (now : ℕ) (conns : List (ℕ × ConnInfo)) :
    List (ℕ × ConnInfo) :=
  conns.filter (fun e => ! decide (now - e.2.lastActivity > IDLE_THRESHOLD))

/-- The first `setInterval(·, CLEANUP_INTERVAL)` firing strictly after
time `t` (the interval fires at 60000, 120000, …). -/
def nextSweepAfter (t : ℕ) : ℕ :=
  (t / CLEANUP_INTERVAL + 1) * CLEANUP_INTERVAL

/-- One firing of `sendHeartbeats` at time `now`: first component = the
surviving registry (open channels, pinged, `lastActivity` refreshed),
second component = the ids deleted at this sweep (channels not open). -/
def sendHeartbeats (now : ℕ) (conns : List (ℕ × ConnInfo)) :
    List (ℕ × ConnInfo) × List ℕ :=
  (conns.filterMap
      (fun e => if e.2.isOpen then some (e.1, ⟨true, now⟩) else none),
   (conns.filter (fun e => ! e.2.isOpen)).map Prod.fst)

/-! ## `sendCommand` and the pending-command table
(src/client/relay_sender.js 196–236 and 253–287)

`sendCommand` rejects immediately when not connected (before allocating an
id); otherwise it registers a callback in `pendingCommands` under a fresh
`commandId++` and arms a 30 s timeout.  The `message` handler settles and
deletes an entry only if it is still present; the `close` handler rejects
and deletes every pending entry and clears `connected`; the timeout
settles only if its entry is still present.  The model replays any
sequence of these events. -/

inductive Outcome where
  | resolved
  | rejectedError
  | rejectedClosed
  | rejectedTimeout
deriving DecidableEq

inductive CEvent where
  /-- a `sendCommand(...)` call -/
  | send
  /-- a `command_response` relay message for `id`; `isError` = the
  response carried a truthy `error` field -/
  | response (id : ℕ) (isError : Bool)
  /-- the WebSocket `close` event -/
  | closeConn
  /-- the 30 s response timeout armed for `id` fires -/
  | timeout (id : ℕ)
  /-- a successful reconnect (`initializeConnection`) -/
  | reopen

structure CState where
  connected : Bool
  nextId : ℕ
  pending : List ℕ
  settled : List (ℕ × Outcome)
  notConnectedRejects : ℕ
deriving DecidableEq

def cStep (s : CState) : CEvent → CState
  | .send =>
      if s.connected then
        { s with nextId := s.nextId + 1, pending := s.pending ++ [s.nextId] }
      else
        { s with notConnectedRejects := s.notConnectedRejects + 1 }
  | .response id isError =>
      if id ∈ s.pending then
        { s with pending := s.pending.erase id,
                 settled := s.settled ++
                   [(id, if isError then .rejectedError else .resolved)] }
      else s
  | .closeConn =>
      { s with connected := false, pending := [],
               settled := s.settled ++
                 s.pending.map (fun id => (id, Outcome.rejectedClosed)) }
  | .timeout id =>
      if id ∈ s.pending then
        { s with pending := s.pending.erase id,
                 settled := s.settled ++ [(id, .rejectedTimeout)] }
      else s
  | .reopen => { s with connected := true }

/-- `commandId` starts at 1; the client starts connected with no pending
commands. -/
def cInit : CState := ⟨true, 1, [], [], 0⟩

def cRun (es : List CEvent) : CState := es.foldl cStep cInit

/-! ## Chunking lemmas -/

theorem chunkSplit_flatten (l : List ℕ) : (chunkSplit l).flatten = l := by
  induction l using chunkSplit.induct with
  | case1 => simp [chunkSplit]
  | case2 a l ih =>
      rw [chunkSplit, List.flatten_cons, ih, List.take_append_drop]

theorem chunkSplit_length (l : List ℕ) (h : l ≠ []) :
    (chunkSplit l).length = (l.length + 524287) / 524288 := by
  induction l using chunkSplit.induct with
  | case1 => simp at h
  | case2 a l ih =>
      rw [chunkSplit]
      by_cases hd : (a :: l).drop 524288 = []
      · rw [hd]
        have hlen : (a :: l).length ≤ 524288 := by
          rw [← List.drop_eq_nil_iff]
          exact hd
        simp only [chunkSplit, List.length_cons, List.length_nil]
        simp only [List.length_cons] at hlen
        omega
      · rw [List.length_cons, ih hd]
        have h2 : ¬ (a :: l).length ≤ 524288 := by
          rw [← List.drop_eq_nil_iff]
          exact hd
        have h1 : ((a :: l).drop 524288).length = (a :: l).length - 524288 := by
          simp
        simp only [List.length_cons] at h1 h2 ⊢
        omega

/-! ## Claim C1 -/

/-- C1: the claim says that for every relay message shorter than the chunk
threshold, the bytes written to the local socket equal the message exactly,
each byte delivered exactly once.  The code violates this:
`processWriteQueue` contains a duplicated `try { socket.write(data); ... }`
block, so every dequeued chunk is written to the local socket twice.  This
theorem evaluates the model at the failing input — a single one-byte relay
message `[0x61]` arriving on a fresh session whose socket accepts every
write: the socket receives `[0x61, 0x61]`, not `[0x61]`. -/
theorem c1_passthrough_duplicates_each_chunk :
    ((wsOnMessage ⟨[], false, []⟩ [97]).written).flatten = [97, 97]
    ∧ ((wsOnMessage ⟨[], false, []⟩ [97]).written).flatten ≠ [97] := by
  decide

/-! ## Claim C4 -/

/-- C4 (counterexample): the claim puts the chunk threshold at 512 KB with
chunk size half of that (256 KiB = 262144).  In the code the threshold is
`MAX_BUFFER_SIZE = 1024 * 1024` (1 MB) and the chunk size is half *that*
(512 KiB).  A relay message of 524289 bytes — larger than the claimed
512 KiB threshold — is queued as a single chunk, not the
`ceil(524289 / 262144) = 3` chunks the claim requires. -/
theorem c4_counterexample :
    (List.replicate 524289 0).length > 512 * 1024
    ∧ queueMessage (List.replicate 524289 0) = [List.replicate 524289 0]
    ∧ (queueMessage (List.replicate 524289 0)).length = 1
    ∧ (1 : ℕ) ≠ (524289 + 262143) / 262144 := by
  have hlen : (List.replicate 524289 (0 : ℕ)).length = 524289 :=
    List.length_replicate 524289 0
  have hq : queueMessage (List.replicate 524289 0) = [List.replicate 524289 0] := by
    rw [queueMessage, if_neg]
    intro hcon
    rw [hlen] at hcon
    exact absurd hcon (by decide)
  refine ⟨?_, hq, ?_, by decide⟩
  · rw [hlen]
    decide
  · rw [hq]
    rfl

/-- C4 (amended): the threshold is `MAX_BUFFER_SIZE = 1024 * 1024` bytes
(1 MB), and the chunk size is half the threshold (524288 bytes).  A
relay→local message of `N ≤ MAX_BUFFER_SIZE` bytes is queued as the single
chunk it arrived as; a message of `N > MAX_BUFFER_SIZE` bytes is split into
exactly `ceil(N / 524288)` ordered chunks whose concatenation in order
equals the original message. -/
theorem c4_chunk_split :
    ∀ (data : List ℕ),
      (data.length ≤ MAX_BUFFER_SIZE → queueMessage data = [data])
      ∧ (data.length > MAX_BUFFER_SIZE →
          (queueMessage data).length = (data.length + 524287) / 524288
          ∧ (queueMessage data).flatten = data) := by
  intro data
  constructor
  · intro h
    rw [queueMessage, if_neg]
    omega
  · intro h
    have hne : data ≠ [] := by
      intro hnil
      rw [hnil] at h
      exact absurd h (by decide)
    rw [queueMessage, if_pos h]
    exact ⟨chunkSplit_length data hne, chunkSplit_flatten data⟩

theorem c4_chunk_split_witness :
    (queueMessage (List.replicate 7 1) = [List.replicate 7 1])
    ∧ (queueMessage (List.replicate 1048577 0)).length = 3
    ∧ (queueMessage (List.replicate 1048577 0)).flatten
        = List.replicate 1048577 0 := by
  have h1 := (c4_chunk_split (List.replicate 7 1)).1
    (by rw [List.length_replicate]; decide)
  have h2 := (c4_chunk_split (List.replicate 1048577 0)).2
    (by rw [List.length_replicate]; decide)
  refine ⟨h1, ?_, h2.2⟩
  rw [h2.1, List.length_replicate]

/-! ## Claim C6 -/

/-- C6 (counterexample): the claim says registering a session under an id
already present in the registry fails with a DuplicateId error instead of
silently replacing the entry.  Neither registry (`connections.set` in
src/server/relay_listener.js nor `activeConnections.set` in the gitea
listener) has any such error: `Map.set` silently replaces.  Registering
session `20` under id `1` when id `1` already holds session `10` yields a
registry whose entry for `1` is the new session. -/
theorem c6_counterexample :
    mapGet (mapSet (mapSet ([] : List (ℕ × ℕ)) 1 10) 1 20) 1 = some 20
    ∧ (some 20 : Option ℕ) ≠ some 10 := by
  decide

/-- C6 (amended): registering a session under an id that is already present
silently replaces the stored session (JS `Map.set` semantics); no
DuplicateId error exists, and entries under other ids are unaffected. -/
theorem c6_register_silently_replaces (α : Type) (reg : List (ℕ × α))
    (id : ℕ) (s : α) (id' : ℕ) :
    mapGet (mapSet reg id s) id' = if id' = id then some s else mapGet reg id' :=
  mapGet_mapSet reg id s id'

/-! ## Claim C9 -/

/-- C9: removing a session id from the registry is idempotent.
`connections.delete(id)` / `activeConnections.delete(id)` (run by both the
`close` and `error` handlers) is a no-op when the id is absent, and running
the removal a second time — as when a close event follows an error event
for the same already-removed session — changes nothing and raises no
error.  (The `Nodup` hypothesis is the JS `Map` invariant: one entry per
key.) -/
theorem c9_remove_idempotent :
    (∀ (reg : List (ℕ × ℕ)) (id : ℕ),
        mapGet reg id = none → mapDelete reg id = reg)
    ∧ (∀ (reg : List (ℕ × ℕ)) (id : ℕ), (reg.map Prod.fst).Nodup →
        mapDelete (mapDelete reg id) id = mapDelete reg id) :=
  ⟨fun reg id h => mapDelete_of_get_none reg id h,
   fun reg id h => mapDelete_mapDelete reg id h⟩

theorem c9_remove_idempotent_witness :
    mapDelete [((1 : ℕ), (10 : ℕ)), (2, 20)] 5 = [(1, 10), (2, 20)]
    ∧ mapDelete (mapDelete [((1 : ℕ), (10 : ℕ)), (2, 20)] 1) 1
        = mapDelete [((1 : ℕ), (10 : ℕ)), (2, 20)] 1 :=
  ⟨c9_remove_idempotent.1 [(1, 10), (2, 20)] 5 (by decide),
   c9_remove_idempotent.2 [(1, 10), (2, 20)] 1 (by decide)⟩

/-! ## Backoff lemmas -/

theorem iterDelay_succ_out (d : ℚ) (n : ℕ) :
    iterDelay d (n + 1) = min (iterDelay d n * (3 / 2)) 5000 := by
  induction n generalizing d with
  | zero => rfl
  | succ n ih =>
      show iterDelay (min (d * (3 / 2)) 5000) (n + 1)
        = min (iterDelay d (n + 1) * (3 / 2)) 5000
      rw [ih]
      rfl

theorem backoffDelay_eq_iterDelay (n : ℕ) : backoffDelay n = iterDelay 200 n := by
  induction n with
  | zero => rfl
  | succ n ih =>
      rw [backoffDelay, ih, ← iterDelay_succ_out]

theorem cwrGo_delays (oracle : ℕ → AttemptResult) :
    ∀ (fuel rc : ℕ) (d : ℚ) (i : ℕ),
      i < ((cwrGo oracle rc d fuel).2.1).length →
      ((cwrGo oracle rc d fuel).2.1).get? i = some (iterDelay d i) := by
  intro fuel
  induction fuel with
  | zero =>
      intro rc d i h
      simp [cwrGo] at h
  | succ fuel ih =>
      intro rc d i h
      cases ho : oracle (rc + 1) with
      | success => simp [cwrGo, ho] at h
      | wsFail => simp [cwrGo, ho] at h
      | tcpFail =>
          by_cases h9 : 10 - 1 ≤ rc
          · simp [cwrGo, ho, h9] at h
          · simp only [cwrGo, ho, h9, if_false, ite_false] at h ⊢
            cases i with
            | zero => rfl
            | succ i =>
                simp only [List.length_cons, Nat.add_lt_add_iff_right] at h
                simp only [List.get?_cons_succ]
                exact ih (rc + 1) (min (d * (3 / 2)) 5000) i h

theorem cwrGo_attempts_le (oracle : ℕ → AttemptResult) :
    ∀ (fuel rc : ℕ) (d : ℚ), (cwrGo oracle rc d fuel).2.2 ≤ fuel := by
  intro fuel
  induction fuel with
  | zero => intro rc d; simp [cwrGo]
  | succ fuel ih =>
      intro rc d
      cases ho : oracle (rc + 1) with
      | success => simp [cwrGo, ho]
      | wsFail => simp [cwrGo, ho]
      | tcpFail =>
          by_cases h9 : 10 - 1 ≤ rc
          · simp [cwrGo, ho, h9]
          · simp only [cwrGo, ho, h9, if_false, ite_false]
            have := ih (rc + 1) (min (d * (3 / 2)) 5000)
            omega

theorem gcwrGo_delays (succ : ℕ → Bool) :
    ∀ (fuel rc : ℕ) (i : ℕ),
      i < ((gcwrGo succ rc fuel).2.1).length →
      ((gcwrGo succ rc fuel).2.1).get? i = some (giteaRetryDelay (rc + i)) := by
  intro fuel
  induction fuel with
  | zero =>
      intro rc i h
      simp [gcwrGo] at h
  | succ fuel ih =>
      intro rc i h
      by_cases hs : succ (rc + 1)
      · simp [gcwrGo, hs] at h
      · rw [Bool.not_eq_true] at hs
        by_cases h10 : rc < 10
        · have hstep : gcwrGo succ rc (fuel + 1)
              = ((gcwrGo succ (rc + 1) fuel).1,
                 giteaRetryDelay rc :: (gcwrGo succ (rc + 1) fuel).2.1,
                 (gcwrGo succ (rc + 1) fuel).2.2 + 1) := by
            rw [gcwrGo, hs]
            rw [if_neg (by simp), if_pos h10]
          rw [hstep] at h ⊢
          cases i with
          | zero => simp
          | succ i =>
              simp only [List.length_cons, Nat.add_lt_add_iff_right] at h
              simp only [List.get?_cons_succ]
              rw [ih (rc + 1) i h]
              rw [show rc + (i + 1) = rc + 1 + i by omega]
        · have hstep : gcwrGo succ rc (fuel + 1) = (none, [], 1) := by
            rw [gcwrGo, hs]
            rw [if_neg (by simp), if_neg h10]
          rw [hstep] at h
          simp at h

theorem backoffDelay_one : backoffDelay 1 = 300 := by
  show min (backoffDelay 0 * (3 / 2)) 5000 = 300
  rw [show backoffDelay 0 * (3 / 2) = 300 by rw [backoffDelay]; norm_num]
  rw [min_eq_left (by norm_num : (300 : ℚ) ≤ 5000)]

theorem giteaRetryDelay_one : giteaRetryDelay 1 = 750 := by
  rw [giteaRetryDelay, if_neg (by norm_num : (1 : ℕ) ≠ 0)]
  rw [show ((3 / 2 : ℚ)) ^ 1 * 500 = 750 by norm_num]
  rw [min_eq_left (by norm_num : (750 : ℚ) ≤ 5000)]

/-! ## Claim C2 -/

/-- C2 (counterexample): the claim's single schedule — `d 1 = 200`,
`d (n+1) = min(d n * 1.5, 5000)`, permanent failure after 10 attempts —
fails on the code it cites.  (i) The gitea sender's `connectWithRetry`
(README.md 458–516) waits `min(1.5^1 * 500, 5000) = 750` ms before its
third attempt where the claim requires `min(200 * 1.5, 5000) = 300`, and
an all-fail run issues 11 attempts (retryCount 0..10), not 10.  (ii) In
the client's `connectWithRetry` (relay_sender.js 92–186) a WebSocket-stage
failure on the first attempt rejects the scheduler's promise immediately —
no 200 ms wait, no second attempt — because the promise is returned, not
awaited, inside the `try`. -/
theorem c2_counterexample :
    ((giteaConnectWithRetry (fun _ => false)).2.1).get? 1 = some 750
    ∧ (750 : ℚ) ≠ backoffDelay 1
    ∧ (giteaConnectWithRetry (fun _ => false)).2.2 = 11
    ∧ (11 : ℕ) ≠ 10
    ∧ connectWithRetry (fun _ => AttemptResult.wsFail)
        = (RetryOutcome.wsRejected 1, [], 1) := by
  refine ⟨?_, ?_, by decide, by decide, by decide⟩
  · have hget := gcwrGo_delays (fun _ => false) 11 0 1 (by decide)
    simp only [Nat.zero_add] at hget
    rw [giteaRetryDelay_one] at hget
    rw [giteaConnectWithRetry]
    exact hget
  · rw [backoffDelay_one]
    norm_num

/-- C2 (amended): the two schedulers behave differently.  The client
scheduler (relay_sender.js) retries only failures its `try` catches (in
practice the TCP connectivity pre-test): every wait it performs follows
the claimed sequence `d 1 = 200`, `d (n+1) = min(d n * 1.5, 5000)`, it
never issues more than 10 attempts, and an all-caught-failure run fails
permanently after exactly 10 attempts and 9 waits; but an uncaught
WebSocket-stage failure rejects at once — no wait, no further attempts.
The gitea sender's scheduler waits 200 ms before the second attempt and
`min(1.5^n * 500, 5000)` ms before attempt `n + 2`, and gives up only
after 11 attempts. -/
theorem c2_retry_schedules :
    (∀ (oracle : ℕ → AttemptResult) (i : ℕ),
        i < ((connectWithRetry oracle).2.1).length →
        ((connectWithRetry oracle).2.1).get? i = some (backoffDelay i))
    ∧ (∀ oracle : ℕ → AttemptResult, (connectWithRetry oracle).2.2 ≤ 10)
    ∧ ((connectWithRetry (fun _ => AttemptResult.tcpFail)).1
          = RetryOutcome.exhausted
        ∧ (connectWithRetry (fun _ => AttemptResult.tcpFail)).2.2 = 10
        ∧ ((connectWithRetry (fun _ => AttemptResult.tcpFail)).2.1).length = 9)
    ∧ (∀ (oracle : ℕ → AttemptResult) (rc : ℕ) (d : ℚ) (fuel : ℕ),
        oracle (rc + 1) = AttemptResult.wsFail →
        cwrGo oracle rc d (fuel + 1) = (RetryOutcome.wsRejected (rc + 1), [], 1))
    ∧ (∀ (succ : ℕ → Bool) (i : ℕ),
        i < ((giteaConnectWithRetry succ).2.1).length →
        ((giteaConnectWithRetry succ).2.1).get? i = some (giteaRetryDelay i))
    ∧ ((giteaConnectWithRetry (fun _ => false)).1 = none
        ∧ (giteaConnectWithRetry (fun _ => false)).2.2 = 11
        ∧ ((giteaConnectWithRetry (fun _ => false)).2.1).length = 10) := by
  refine ⟨?_, ?_, ⟨by decide, by decide, by decide⟩, ?_, ?_,
    ⟨by decide, by decide, by decide⟩⟩
  · intro oracle i h
    rw [backoffDelay_eq_iterDelay]
    exact cwrGo_delays oracle 10 0 200 i h
  · intro oracle
    exact cwrGo_attempts_le oracle 10 0 200
  · intro oracle rc d fuel ho
    rw [cwrGo, ho]
  · intro succ i h
    rw [giteaConnectWithRetry] at h ⊢
    rw [gcwrGo_delays succ 11 0 i h, Nat.zero_add]

theorem c2_retry_schedules_witness :
    ((connectWithRetry (fun _ => AttemptResult.tcpFail)).2.1).get? 0
        = some (backoffDelay 0)
    ∧ ((connectWithRetry (fun _ => AttemptResult.tcpFail)).2.1).get? 8
        = some (backoffDelay 8)
    ∧ cwrGo (fun _ => AttemptResult.wsFail) 0 200 10
        = (RetryOutcome.wsRejected 1, [], 1)
    ∧ ((giteaConnectWithRetry (fun _ => false)).2.1).get? 1
        = some (giteaRetryDelay 1) :=
  ⟨c2_retry_schedules.1 (fun _ => AttemptResult.tcpFail) 0 (by decide),
   c2_retry_schedules.1 (fun _ => AttemptResult.tcpFail) 8 (by decide),
   c2_retry_schedules.2.2.2.1 (fun _ => AttemptResult.wsFail) 0 200 9 rfl,
   c2_retry_schedules.2.2.2.2.1 (fun _ => false) 1 (by decide)⟩

/-! ## Claim C3 -/

/-- C3 (counterexample): the claim says every relay message that cannot be
parsed as an HTTP/1.x request is replaced by the full default Frame
`{method: "GET", path: "/", headers: {}}`.  The code defaults each field
*individually* (`method || 'GET'`, `path || '/'`), so the message `"FOO"`
— no path, no version, not a parseable HTTP/1.x request — produces
`{method: "FOO", path: "/", headers: {}}`, which is not the default
Frame. -/
theorem c3_counterexample :
    specHttpParseable "FOO".data = false
    ∧ parseHttpRequest "FOO".data ≠ ⟨"GET".data, "/".data, []⟩
    ∧ (parseHttpRequest "FOO".data).method = "FOO".data := by
  decide

/-- C3 (amended): the parser never rejects a message and never throws: it
substitutes defaults field by field — `"GET"` when the first token of the
request line is empty, `"/"` when the path token is missing or empty — so
every parse yields a Frame with a non-empty method and a non-empty path,
and the empty message yields exactly the default Frame
`{method: "GET", path: "/", headers: {}}`.  (A nonempty unparseable
request line keeps its first token as the method.) -/
theorem c3_parse_never_rejects :
    parseHttpRequest "".data = ⟨"GET".data, "/".data, []⟩
    ∧ ∀ (data : Str),
        0 < (parseHttpRequest data).method.length
        ∧ 0 < (parseHttpRequest data).path.length := by
  refine ⟨by decide, ?_⟩
  intro data
  constructor
  · have hm : (parseHttpRequest data).method
        = (if (splitSpace ((splitCRLF data).headD [])).headD [] = []
           then "GET".data
           else (splitSpace ((splitCRLF data).headD [])).headD []) := rfl
    rw [hm]
    by_cases h : (splitSpace ((splitCRLF data).headD [])).headD [] = []
    · rw [if_pos h]
      decide
    · rw [if_neg h]
      exact List.length_pos.mpr h
  · have hp : (parseHttpRequest data).path
        = (match (splitSpace ((splitCRLF data).headD []))[1]? with
           | some p => if p = [] then "/".data else p
           | none => "/".data) := rfl
    rw [hp]
    cases hp1 : (splitSpace ((splitCRLF data).headD []))[1]? with
    | none => decide
    | some p =>
        by_cases h : p = []
        · simp only [h, if_pos]
          decide
        · simp only [if_neg h]
          exact List.length_pos.mpr h

/-! ## Header-fold lemmas for claim C7 -/

theorem find?_append_or {α : Type} (p : α → Bool) (l₁ l₂ : List α) :
    (l₁ ++ l₂).find? p = ((l₁.find? p).or (l₂.find? p)) :=
  List.find?_append

theorem foldl_mapSet_get (ps : List (Str × Str)) :
    ∀ (m : List (Str × Str)) (k : Str),
      mapGet (ps.foldl (fun m kv => mapSet m kv.1 kv.2) m) k
        = (ps.reverse.find? (fun p => p.1 == k)).elim (mapGet m k)
            (fun p => some p.2) := by
  induction ps with
  | nil => intro m k; simp
  | cons kv ps ih =>
      intro m k
      simp only [List.foldl_cons, List.reverse_cons]
      rw [ih, find?_append_or]
      cases hf : ps.reverse.find? (fun p => p.1 == k) with
      | some p => simp [Option.or]
      | none =>
          simp only [Option.or]
          rw [mapGet_mapSet]
          by_cases hk : kv.1 = k
          · rw [List.find?_cons_of_pos]
            · simp [hk.symm]
            · simp [hk]
          · rw [List.find?_cons_of_neg]
            · have h2 : ¬ k = kv.1 := fun hh => hk hh.symm
              simp [List.find?, h2]
            · simp [hk]

theorem parseHttpRequest_headers_eq_foldl (data : Str) :
    (parseHttpRequest data).headers
      = (headerPairsOf data).foldl (fun m kv => mapSet m kv.1 kv.2) [] := by
  have hgen : ∀ (ls : List Str) (m : List (Str × Str)),
      ls.foldl
        (fun m line =>
          match parseHeaderLine line with
          | some kv => mapSet m kv.1 kv.2
          | none => m) m
        = (ls.filterMap parseHeaderLine).foldl
            (fun m kv => mapSet m kv.1 kv.2) m := by
    intro ls
    induction ls with
    | nil => intro m; rfl
    | cons l ls ih =>
        intro m
        cases hp : parseHeaderLine l <;>
          simp [List.filterMap_cons, hp, ih]
  simp only [parseHttpRequest, headerPairsOf]
  exact hgen (headerLines data) []

/-! ## Claim C7 -/

/-- C7 (counterexample): the claim says a duplicated header key keeps the
value of its *first* occurrence.  The header loop executes
`headers[key] = value`, and JS object assignment overwrites, so the *last*
occurrence wins: parsing `"GET / HTTP/1.1\r\nA: 1\r\nA: 2\r\n\r\n"` yields
`headers["A"] = "2"`, not `"1"`. -/
theorem c7_counterexample :
    mapGet (parseHttpRequest
        "GET / HTTP/1.1\r\nA: 1\r\nA: 2\r\n\r\n".data).headers "A".data
      = some "2".data
    ∧ some "2".data ≠ some "1".data := by
  decide

/-- C7 (amended): for every request text and header key, the parsed Frame's
header map holds the value of the *last* accepted occurrence of that key
among the header lines (JS object assignment overwrites on duplicate
keys); the key is absent exactly when no header line yields it. -/
theorem c7_duplicate_headers_keep_last (data : Str) (k : Str) :
    mapGet (parseHttpRequest data).headers k
      = ((headerPairsOf data).reverse.find? (fun p => p.1 == k)).map Prod.snd := by
  rw [parseHttpRequest_headers_eq_foldl, foldl_mapSet_get]
  cases hf : (headerPairsOf data).reverse.find? (fun p => p.1 == k) with
  | none => simp [mapGet]
  | some p => simp

/-! ## Claim C5 -/

theorem not_endsWith_js_of_endsWith_css (path : String)
    (h : endsWithS path ".css" = true) : endsWithS path ".js" = false := by
  rw [endsWithS, decide_eq_true_eq] at h
  rw [endsWithS]
  apply decide_eq_false
  intro hjs
  rcases List.suffix_or_suffix_of_suffix hjs h with h1 | h1
  · exact absurd h1 (by decide)
  · exact absurd h1 (by decide)

/-- C5: after the send callback for a synthesized response runs without
error, the session is closed immediately with the normal close code (1000)
for a JavaScript asset not on the core allow-list; it is kept open for a
core JS asset (path containing `webcomponents.js` or `serviceworker.js`);
it is closed 100 ms later (with code 1000) for a CSS asset; and it is kept
open for every other asset/content type. -/
theorem c5_close_policy (path : String) :
    (endsWithS path ".js" = true → isCoreJsFile path = false →
        closeDecision path = .closeNow 1000)
    ∧ (isCoreJsFile path = true → closeDecision path = .keepOpen)
    ∧ (endsWithS path ".css" = true →
        closeDecision path = .closeAfterDelay 100 1000)
    ∧ (endsWithS path ".js" = false → endsWithS path ".css" = false →
        closeDecision path = .keepOpen) := by
  refine ⟨?_, ?_, ?_, ?_⟩
  · intro hjs hcore
    simp [closeDecision, hjs, hcore]
  · intro hcore
    simp [closeDecision, hcore]
  · intro hcss
    have hjs := not_endsWith_js_of_endsWith_css path hcss
    have hcore : isCoreJsFile path = false := by
      rw [isCoreJsFile, hjs]
      rfl
    simp [closeDecision, hjs, hcore, hcss]
  · intro hjs hcss
    have hcore : isCoreJsFile path = false := by
      rw [isCoreJsFile, hjs]
      rfl
    simp [closeDecision, hjs, hcss, hcore]

theorem c5_close_policy_witness :
    closeDecision "/assets/app.js" = CloseAction.closeNow 1000
    ∧ closeDecision "/js/webcomponents.js" = CloseAction.keepOpen
    ∧ closeDecision "/style.css" = CloseAction.closeAfterDelay 100 1000
    ∧ closeDecision "/index.html" = CloseAction.keepOpen :=
  ⟨(c5_close_policy "/assets/app.js").1 (by decide) (by decide),
   (c5_close_policy "/js/webcomponents.js").2.1 (by decide),
   (c5_close_policy "/style.css").2.2.1 (by decide),
   (c5_close_policy "/index.html").2.2.2 (by decide) (by decide)⟩

/-! ## Claim C8 -/

/-- C8: (i) a registered session whose `lastActivity` stays at `la` is
evicted by the cleanup sweep that fires at `nextSweepAfter (la +
IDLE_THRESHOLD)`, which is within one interval (`CLEANUP_INTERVAL`) of the
moment `la + IDLE_THRESHOLD` at which the session crosses the idle
threshold; (ii) at a heartbeat sweep, a session whose channel reports
not-open is deleted at that same sweep, and (iii) every entry surviving a
heartbeat sweep had an open channel. -/
theorem c8_idle_eviction :
    (∀ (la : ℕ) (conns : List (ℕ × ConnInfo)) (id : ℕ) (c : ConnInfo),
        (id, c) ∈ conns → c.lastActivity = la →
        la + IDLE_THRESHOLD < nextSweepAfter (la + IDLE_THRESHOLD)
        ∧ nextSweepAfter (la + IDLE_THRESHOLD)
            ≤ la + IDLE_THRESHOLD + CLEANUP_INTERVAL
        ∧ (id, c) ∉ cleanupSweep (nextSweepAfter (la + IDLE_THRESHOLD)) conns)
    ∧ (∀ (now : ℕ) (conns : List (ℕ × ConnInfo)) (id : ℕ) (c : ConnInfo),
        (id, c) ∈ conns → c.isOpen = false →
        id ∈ (sendHeartbeats now conns).2)
    ∧ (∀ (now : ℕ) (conns : List (ℕ × ConnInfo)) (e : ℕ × ConnInfo),
        e ∈ (sendHeartbeats now conns).1 → e.2.isOpen = true) := by
  refine ⟨?_, ?_, ?_⟩
  · intro la conns id c hmem hla
    have hI : CLEANUP_INTERVAL = 60000 := rfl
    have hT : IDLE_THRESHOLD = 300000 := rfl
    have h1 : la + IDLE_THRESHOLD < nextSweepAfter (la + IDLE_THRESHOLD) := by
      rw [nextSweepAfter, hI, hT]
      omega
    have h2 : nextSweepAfter (la + IDLE_THRESHOLD)
        ≤ la + IDLE_THRESHOLD + CLEANUP_INTERVAL := by
      rw [nextSweepAfter, hI, hT]
      omega
    refine ⟨h1, h2, ?_⟩
    intro hin
    rw [cleanupSweep] at hin
    have := (List.mem_filter.mp hin).2
    rw [Bool.not_eq_true', decide_eq_false_iff_not] at this
    apply this
    rw [hla]
    rw [hT] at h1 ⊢
    omega
  · intro now conns id c hmem hopen
    rw [sendHeartbeats]
    exact List.mem_map.mpr
      ⟨(id, c), List.mem_filter.mpr ⟨hmem, by rw [hopen]; rfl⟩, rfl⟩
  · intro now conns e he
    rw [sendHeartbeats] at he
    rcases List.mem_filterMap.mp he with ⟨a, _, ha⟩
    by_cases hop : a.2.isOpen
    · rw [if_pos hop] at ha
      cases ha
      rfl
    · rw [if_neg hop] at ha
      cases ha

theorem c8_idle_eviction_witness :
    (0 + IDLE_THRESHOLD < nextSweepAfter (0 + IDLE_THRESHOLD)
      ∧ nextSweepAfter (0 + IDLE_THRESHOLD)
          ≤ 0 + IDLE_THRESHOLD + CLEANUP_INTERVAL
      ∧ ((3 : ℕ), (⟨true, 0⟩ : ConnInfo))
          ∉ cleanupSweep (nextSweepAfter (0 + IDLE_THRESHOLD))
              [(3, ⟨true, 0⟩)])
    ∧ (4 : ℕ) ∈ (sendHeartbeats 99 [((4 : ℕ), (⟨false, 7⟩ : ConnInfo))]).2
    ∧ ((5 : ℕ), (⟨true, 99⟩ : ConnInfo)).2.isOpen = true :=
  ⟨c8_idle_eviction.1 0 [(3, ⟨true, 0⟩)] 3 ⟨true, 0⟩ (by decide) rfl,
   c8_idle_eviction.2.1 99 [(4, ⟨false, 7⟩)] 4 ⟨false, 7⟩ (by decide) rfl,
   c8_idle_eviction.2.2 99 [(5, ⟨true, 0⟩)] (5, ⟨true, 99⟩) (by decide)⟩

/-! ## Claim C10: invariants of the pending-command table -/

/-- Invariant of the command machinery: pending ids are distinct and fresh
(below `commandId`), settled ids are distinct and fresh, and no id is both
pending and settled (each promise settles at most once). -/
def CInv (s : CState) : Prop :=
  s.pending.Nodup
  ∧ (∀ id ∈ s.pending, id < s.nextId)
  ∧ (∀ id ∈ s.settled.map Prod.fst, id < s.nextId)
  ∧ (∀ id ∈ s.pending, id ∉ s.settled.map Prod.fst)
  ∧ (s.settled.map Prod.fst).Nodup

theorem cStep_preserves_CInv (s : CState) (e : CEvent) (h : CInv s) :
    CInv (cStep s e) := by
  obtain ⟨hnd, hplt, hslt, hdis, hsnd⟩ := h
  cases e with
  | send =>
      by_cases hc : s.connected
      · simp only [cStep, CInv, if_pos hc]
        refine ⟨?_, ?_, ?_, ?_, ?_⟩
        · rw [List.nodup_append]
          refine ⟨hnd, List.nodup_singleton _, ?_⟩
          intro a ha hb
          rw [List.mem_singleton] at hb
          subst hb
          exact absurd (hplt _ ha) (lt_irrefl _)
        · intro id hid
          rw [List.mem_append, List.mem_singleton] at hid
          rcases hid with hid | hid
          · exact Nat.lt_succ_of_lt (hplt id hid)
          · omega
        · intro id hid
          exact Nat.lt_succ_of_lt (hslt id hid)
        · intro id hid
          rw [List.mem_append, List.mem_singleton] at hid
          rcases hid with hid | hid
          · exact hdis id hid
          · subst hid
            intro hmem
            exact absurd (hslt _ hmem) (lt_irrefl _)
        · exact hsnd
      · simp only [cStep, CInv, if_neg hc]
        exact ⟨hnd, hplt, hslt, hdis, hsnd⟩
  | response id isError =>
      by_cases hp : id ∈ s.pending
      · simp only [cStep, CInv, if_pos hp]
        refine ⟨hnd.erase id, ?_, ?_, ?_, ?_⟩
        · intro i hi
          exact hplt i (List.mem_of_mem_erase hi)
        · intro i hi
          simp only [List.map_append, List.map_cons, List.map_nil,
            List.mem_append, List.mem_singleton] at hi
          rcases hi with hi | hi
          · exact hslt i hi
          · subst hi
            exact hplt i hp
        · intro i hi
          have hi' := (hnd.mem_erase_iff.mp hi)
          simp only [List.map_append, List.map_cons, List.map_nil,
            List.mem_append, List.mem_singleton]
          intro hcon
          rcases hcon with hcon | hcon
          · exact hdis i hi'.2 hcon
          · exact hi'.1 hcon
        · simp only [List.map_append, List.map_cons, List.map_nil]
          rw [List.nodup_append]
          refine ⟨hsnd, List.nodup_singleton _, ?_⟩
          intro a ha hb
          rw [List.mem_singleton] at hb
          subst hb
          exact hdis a hp ha
      · simp only [cStep, CInv, if_neg hp]
        exact ⟨hnd, hplt, hslt, hdis, hsnd⟩
  | closeConn =>
      simp only [cStep, CInv]
      have hgen : ∀ l : List ℕ,
          (l.map (fun id => (id, Outcome.rejectedClosed))).map Prod.fst = l := by
        intro l
        induction l with
        | nil => rfl
        | cons a l ih => simp [ih]
      have hmm := hgen s.pending
      refine ⟨List.nodup_nil, by simp, ?_, by simp, ?_⟩
      · intro i hi
        rw [List.map_append, hmm, List.mem_append] at hi
        rcases hi with hi | hi
        · exact hslt i hi
        · exact hplt i hi
      · rw [List.map_append, hmm, List.nodup_append]
        exact ⟨hsnd, hnd, fun a ha hb => hdis a hb ha⟩
  | timeout id =>
      by_cases hp : id ∈ s.pending
      · simp only [cStep, CInv, if_pos hp]
        refine ⟨hnd.erase id, ?_, ?_, ?_, ?_⟩
        · intro i hi
          exact hplt i (List.mem_of_mem_erase hi)
        · intro i hi
          simp only [List.map_append, List.map_cons, List.map_nil,
            List.mem_append, List.mem_singleton] at hi
          rcases hi with hi | hi
          · exact hslt i hi
          · subst hi
            exact hplt i hp
        · intro i hi
          have hi' := (hnd.mem_erase_iff.mp hi)
          simp only [List.map_append, List.map_cons, List.map_nil,
            List.mem_append, List.mem_singleton]
          intro hcon
          rcases hcon with hcon | hcon
          · exact hdis i hi'.2 hcon
          · exact hi'.1 hcon
        · simp only [List.map_append, List.map_cons, List.map_nil]
          rw [List.nodup_append]
          refine ⟨hsnd, List.nodup_singleton _, ?_⟩
          intro a ha hb
          rw [List.mem_singleton] at hb
          subst hb
          exact hdis a hp ha
      · simp only [cStep, CInv, if_neg hp]
        exact ⟨hnd, hplt, hslt, hdis, hsnd⟩
  | reopen =>
      simp only [cStep, CInv]
      exact ⟨hnd, hplt, hslt, hdis, hsnd⟩

theorem cRun_CInv (es : List CEvent) : CInv (cRun es) := by
  have hgen : ∀ (l : List CEvent) (s : CState), CInv s → CInv (l.foldl cStep s) := by
    intro l
    induction l with
    | nil => intro s hs; exact hs
    | cons e l ih =>
        intro s hs
        exact ih (cStep s e) (cStep_preserves_CInv s e hs)
  refine hgen es cInit ⟨?_, ?_, ?_, ?_, ?_⟩ <;> simp [cInit, CInv]

/-! ## Claim C10 -/

/-- C10: after any sequence of sendCommand calls, command responses,
connection closes, reopens and response timeouts, (i) every command id
settles at most once (the settled ids are distinct) and a pending command
is still unsettled; (ii) a pending command's 30-second timeout settles it
(with a rejection) exactly once and removes its `pendingCommands` entry;
(iii) a matching `command_response` settles a pending command — resolving
it without an error field, rejecting it with one — and removes its entry;
(iv) a connection close rejects and removes all pending entries; and
(v) `sendCommand` while not connected rejects immediately and registers
nothing. -/
theorem c10_sendCommand_settles_exactly_once (es : List CEvent) :
    ((cRun es).settled.map Prod.fst).Nodup
    ∧ (∀ id ∈ (cRun es).pending, id ∉ (cRun es).settled.map Prod.fst)
    ∧ (∀ id, id ∈ (cRun es).pending →
        (cStep (cRun es) (.timeout id)).settled
            = (cRun es).settled ++ [(id, .rejectedTimeout)]
        ∧ id ∉ (cStep (cRun es) (.timeout id)).pending)
    ∧ (∀ id isError, id ∈ (cRun es).pending →
        (cStep (cRun es) (.response id isError)).settled
            = (cRun es).settled
              ++ [(id, if isError then .rejectedError else .resolved)]
        ∧ id ∉ (cStep (cRun es) (.response id isError)).pending)
    ∧ ((cStep (cRun es) .closeConn).pending = []
        ∧ (cStep (cRun es) .closeConn).settled
            = (cRun es).settled
              ++ (cRun es).pending.map (fun id => (id, Outcome.rejectedClosed)))
    ∧ ((cRun es).connected = false →
        cStep (cRun es) .send
          = { cRun es with
              notConnectedRejects := (cRun es).notConnectedRejects + 1 }) := by
  obtain ⟨hnd, hplt, hslt, hdis, hsnd⟩ := cRun_CInv es
  refine ⟨hsnd, hdis, ?_, ?_, ?_, ?_⟩
  · intro id hid
    constructor
    · simp [cStep, hid]
    · simp only [cStep, if_pos hid]
      intro hcon
      exact (hnd.mem_erase_iff.mp hcon).1 rfl
  · intro id isError hid
    constructor
    · simp [cStep, hid]
    · simp only [cStep, if_pos hid]
      intro hcon
      exact (hnd.mem_erase_iff.mp hcon).1 rfl
  · exact ⟨rfl, rfl⟩
  · intro hc
    simp [cStep, hc]

theorem c10_sendCommand_witness :
    ((cRun [CEvent.send, CEvent.send]).settled.map Prod.fst).Nodup
    ∧ (1 : ℕ) ∉ (cRun [CEvent.send, CEvent.send]).settled.map Prod.fst
    ∧ (cStep (cRun [CEvent.send, CEvent.send]) (.timeout 1)).settled
        = [(1, Outcome.rejectedTimeout)]
    ∧ (1 : ℕ) ∉ (cStep (cRun [CEvent.send, CEvent.send]) (.timeout 1)).pending
    ∧ (cStep (cRun [CEvent.send, CEvent.send]) (.response 2 false)).settled
        = [(2, Outcome.resolved)]
    ∧ (cStep (cRun [CEvent.send, CEvent.closeConn]) .send)
        = { cRun [CEvent.send, CEvent.closeConn] with
            notConnectedRejects :=
              (cRun [CEvent.send, CEvent.closeConn]).notConnectedRejects + 1 } := by
  have h := c10_sendCommand_settles_exactly_once [CEvent.send, CEvent.send]
  have h2 := c10_sendCommand_settles_exactly_once [CEvent.send, CEvent.closeConn]
  have ht := h.2.2.1 1 (by decide)
  have hr := h.2.2.2.1 2 false (by decide)
  refine ⟨h.1, h.2.1 1 (by decide), ?_, ht.2, ?_, h2.2.2.2.2.2 (by decide)⟩
  · rw [ht.1]
    rfl
  · rw [hr.1]
    rfl

end OpsBot
